import Mathlib
/-!
Verification of the URL-shortening and click-analytics service
(`app/main.py`): shallow embedding of the store (two relations, `links`
and `clicks`, modelled as lists), of the endpoint handlers
`create_short_link` and `redirect_to_target`, and of the stats helpers
`get_paginated_links`, `get_link_total_stats`, `get_monthly_breakdown`
and `get_stats`.  Randomness (`random.choice`) is modelled by passing the
stream of drawn candidate codes explicitly; store-level failures
(uniqueness-constraint violation on insert, click-record failure) are
modelled by explicit predicates/flags; monetary amounts are rationals.
-/

namespace UrlShortener

/-- The (year, month, day) part of a `TIMESTAMP`; only year and month are
extracted by the aggregation queries. -/
structure Timestamp where
  year : Nat
  month : Nat
  day : Nat
  deriving DecidableEq, Repr
/-- Row of the `links` table: `id`, `original_url`, `short_code`
(`created_at` is set by the store and never read by the logic verified
here, so it is omitted). -/
structure Link where
  id : Nat
  original_url : String
  short_code : String
  deriving DecidableEq, Repr
/-- Row of the `clicks` table: `id`, `link_id`, `clicked_at`, `is_valid`,
`earnings`. -/
structure Click where
  id : Nat
  link_id : Nat
  clicked_at : Timestamp
  is_valid : Bool
  earnings : ℚ
  deriving DecidableEq, Repr
/-- The durable store: the two relations, in insertion order. -/
structure DB where
  links : List Link
  clicks : List Click
  deriving DecidableEq, Repr
def emptyDB : DB := ⟨[], []⟩
/-- `chars = string.ascii_letters + string.digits` from
`generate_short_code`: lowercase, then uppercase, then digits. -/
def chars : List Char :=
  "abcdefghijklmnopqrstuvwxyzABCDEFGHIJKLMNOPQRSTUVWXYZ0123456789".toList
/-- `generate_short_code(length=6)`: one `random.choice(chars)` per
position; the random draws are passed in as `choice`. -/
def generate_short_code (choice : Nat → Fin 62) (length : Nat := 6) : String :=
  String.mk ((List.range length).map (fun i =>
    chars.get ⟨(choice i).val, lt_of_lt_of_le (choice i).isLt (by decide)⟩))
/-- `db.query(Link).filter(Link.short_code == c).first()` is not `None`. -/
def codeExists (db : DB) (c : String) : Bool :=
  (db.links.find? (fun l => l.short_code == c)).isSome
/-- The `while attempts < max_attempts` loop of `create_short_link`:
`attempts` is the index of the next draw, the second argument the number
of attempts still allowed.  Returns the first drawn code not present in
the store, or `none` when every allowed draw collides (the loop falls
through and the handler raises HTTP 500). -/
def findCodeAux (db : DB) (codes : Nat → String) : Nat → Nat → Option String
  | _, 0 => none
  | attempts, remaining + 1 =>
    if codeExists db (codes attempts) then findCodeAux db codes (attempts + 1) remaining
    else some (codes attempts)
/-- Outcome of `POST /links`: the returned `Link` (HTTP 201), or an
HTTP 500 server error (allocation exhausted, or a store error caught by
the `except SQLAlchemyError` handler). -/
inductive CreateOutcome where
  | ok (link : Link)
  | serverError
  deriving DecidableEq, Repr
/-- `create_short_link` (`app/main.py`): return the existing `Link` for
the URL if there is one; otherwise draw up to 10 candidate codes
(`codes` is the stream of `generate_short_code()` results) and insert a
new `Link` with the first free one.  `insertConflict c` models the
store's uniqueness constraint on `short_code` rejecting the
`db.commit()` for code `c` (a concurrent conflicting insert): the
`SQLAlchemyError` is caught, the transaction rolled back and HTTP 500
returned.  `nextId` is the id the store assigns to a new row. -/
def create_short_link (db : DB) (url : String) (codes : Nat → String)
    (nextId : Nat) (insertConflict : String → Bool) : CreateOutcome × DB :=
  match db.links.find? (fun l => l.original_url == url) with
  | some l => (.ok l, db)
  | none =>
    match findCodeAux db codes 0 10 with
    | none => (.serverError, db)
    | some c =>
      if insertConflict c then (.serverError, db)
      else
        (.ok ⟨nextId, url, c⟩, ⟨db.links ++ [⟨nextId, url, c⟩], db.clicks⟩)
/-- Modelled from the spec (§4.1, §9), for comparison with the code:
the allocation loop that treats a uniqueness-constraint violation on
insert as an ordinary retryable condition — a draw is rejected, and the
loop continues, when the code is present in the store or the insert of
that code would conflict. -/
def findCodeRetryAux (db : DB) (codes : Nat → String)
    (insertConflict : String → Bool) : Nat → Nat → Option String
  | _, 0 => none
  | attempts, remaining + 1 =>
    if codeExists db (codes attempts) || insertConflict (codes attempts) then
      findCodeRetryAux db codes insertConflict (attempts + 1) remaining
    else some (codes attempts)
/-- Modelled from the spec (§4.1, §9): `create_short_link` as the spec
words it, catching a conflicting insert and retrying code generation
instead of surfacing the error. -/
def create_short_link_retry_spec (db : DB) (url : String) (codes : Nat → String)
    (nextId : Nat) (insertConflict : String → Bool) : CreateOutcome × DB :=
  match db.links.find? (fun l => l.original_url == url) with
  | some l => (.ok l, db)
  | none =>
    match findCodeRetryAux db codes insertConflict 0 10 with
    | none => (.serverError, db)
    | some c =>
      (.ok ⟨nextId, url, c⟩, ⟨db.links ++ [⟨nextId, url, c⟩], db.clicks⟩)
/-- Outcome of `GET /{short_code}`: the 307 redirect to the target URL,
HTTP 400 for a malformed code, or HTTP 404 for an unknown code. -/
inductive RedirectOutcome where
  | redirect (url : String)
  | badRequest
  | notFound
  deriving DecidableEq, Repr
/-- `redirect_to_target` (`app/main.py`): validate the code shape, look
the link up, then validate and record the click and redirect.
`is_valid` is the verdict `validate_click()` returns; `recordFails`
models any exception raised inside the validate-and-record `try` block
(constraint violation, store unavailability): it is caught, the
transaction rolled back (`db` left unchanged) and the redirect still
returned.  `nextClickId` is the id the store assigns to the new click. -/
def redirect_to_target (db : DB) (short_code : String) (is_valid : Bool)
    (now : Timestamp) (nextClickId : Nat) (recordFails : Bool) :
    RedirectOutcome × DB :=
  if short_code.length = 0 ∨ 20 < short_code.length then (.badRequest, db)
  else
    match db.links.find? (fun l => l.short_code == short_code) with
    | none => (.notFound, db)
    | some link =>
      if recordFails then (.redirect link.original_url, db)
      else
        (.redirect link.original_url,
         ⟨db.links,
          db.clicks ++
            [⟨nextClickId, link.id, now, is_valid,
              if is_valid then (5 : ℚ) / 100 else 0⟩]⟩)
/-- The clicks of one link:
`db.query(Click).filter(Click.link_id == link_id)`. -/
def clicksFor (db : DB) (link_id : Nat) : List Click :=
  db.clicks.filter (fun c => c.link_id == link_id)
/-- `get_link_total_stats`: `COUNT` and `SUM(earnings)` over the link's
clicks (`SUM` of no rows is `NULL`, turned into `0.0` by `or 0.0`). -/
def get_link_total_stats (db : DB) (link_id : Nat) : Nat × ℚ :=
  ((clicksFor db link_id).length,
   ((clicksFor db link_id).map Click.earnings).sum)
/-- `extract('year', ...), extract('month', ...)` of a click. -/
def ymOf (c : Click) : Nat × Nat := (c.clicked_at.year, c.clicked_at.month)
/-- Strict ascending order on (year, month) buckets. -/
def ymLt (p q : Nat × Nat) : Prop := p.1 < q.1 ∨ (p.1 = q.1 ∧ p.2 < q.2)
instance (p q : Nat × Nat) : Decidable (ymLt p q) := by
  unfold ymLt; infer_instance
/-- Non-strict (year, month) order, the comparison the sorted insertion
uses. -/
def ymLe (p q : Nat × Nat) : Prop := p.1 < q.1 ∨ (p.1 = q.1 ∧ p.2 ≤ q.2)
instance (p q : Nat × Nat) : Decidable (ymLe p q) := by
  unfold ymLe; infer_instance
/-- Sorted insertion for the `ORDER BY year, month` of the grouped
query. -/
def insertYM (p : Nat × Nat) : List (Nat × Nat) → List (Nat × Nat)
  | [] => [p]
  | q :: rest =>
    if ymLe p q then p :: q :: rest
    else q :: insertYM p rest
def sortYM : List (Nat × Nat) → List (Nat × Nat)
  | [] => []
  | p :: rest => insertYM p (sortYM rest)
/-- The distinct (year, month) keys of the `GROUP BY` over a click list,
in the query's `ORDER BY year, month` ascending order. -/
def monthKeys (cs : List Click) : List (Nat × Nat) :=
  sortYM ((cs.map ymOf).dedup)
/-- `SUM(earnings)` of one (year, month) group. -/
def bucketSum (cs : List Click) (ym : Nat × Nat) : ℚ :=
  ((cs.filter (fun c => ymOf c == ym)).map Click.earnings).sum
/-- The Python format spec `{m:02d}`: zero-pad to two digits. -/
def pad2 (n : Nat) : String :=
  if n < 10 then "0" ++ toString n else toString n
/-- One element of the `monthly_breakdown` response. -/
structure MonthlyStats where
  month : String
  earnings : ℚ
  deriving DecidableEq, Repr
/-- `get_monthly_breakdown`: the grouped, ordered query rendered as
`MonthlyStats` rows, the month formatted `f"{month:02d}/{year}"`. -/
def get_monthly_breakdown (db : DB) (link_id : Nat) : List MonthlyStats :=
  (monthKeys (clicksFor db link_id)).map (fun ym =>
    ⟨pad2 ym.2 ++ "/" ++ toString ym.1, bucketSum (clicksFor db link_id) ym⟩)
/-- `get_paginated_links`: `offset = (page - 1) * limit`; an offset at or
past the total (with a nonempty table) short-circuits to the empty list,
otherwise `OFFSET offset LIMIT limit`. -/
def get_paginated_links (db : DB) (page limit : Nat) : List Link :=
  let offset := (page - 1) * limit
  if db.links.length ≤ offset ∧ 0 < db.links.length then []
  else (db.links.drop offset).take limit
/-- One element of the `GET /stats` response. -/
structure LinkStats where
  url : String
  total_clicks : Nat
  total_earnings : ℚ
  monthly_breakdown : List MonthlyStats
  deriving DecidableEq, Repr
/-- The per-link body of the `get_stats` loop, when it succeeds. -/
def linkStatsOf (db : DB) (l : Link) : LinkStats :=
  ⟨l.original_url, (get_link_total_stats db l.id).1,
   (get_link_total_stats db l.id).2, get_monthly_breakdown db l.id⟩
/-- `get_stats`: iterate over the page's links, appending each link's
stats; `aggFails l.id` models an exception raised while computing that
link's stats, which the per-link `except` swallows (the link is skipped,
the loop continues). -/
def get_stats (db : DB) (page limit : Nat) (aggFails : Nat → Bool) :
    List LinkStats :=
  (get_paginated_links db page limit).foldl
    (fun acc l => if aggFails l.id then acc else acc ++ [linkStatsOf db l]) []
/-- The operations that write to the store, for the reachable-state
invariant: a `POST /links` and a `GET /{short_code}`, each carrying the
environment the handler consumes (drawn codes, failure flags, the
validation verdict, the clock). -/
inductive Event where
  | create (url : String) (codes : Nat → String) (insertConflict : String → Bool)
  | visit (code : String) (is_valid : Bool) (now : Timestamp) (recordFails : Bool)
/-- One handler invocation; the store assigns ids sequentially. -/
def step (db : DB) : Event → DB
  | .create url codes insertConflict =>
    (create_short_link db url codes (db.links.length + 1) insertConflict).2
  | .visit code valid now recordFails =>
    (redirect_to_target db code valid now (db.clicks.length + 1) recordFails).2
/-- A store state reached by a sequence of handler invocations. -/
def run (db : DB) (es : List Event) : DB := es.foldl step db
/-- The recorder's earnings rule: `0.05` if valid else `0.0`. -/
def clickOK (c : Click) : Prop :=
  c.earnings = if c.is_valid then (5 : ℚ) / 100 else 0
instance (c : Click) : Decidable (clickOK c) := by
  unfold clickOK; infer_instance
def clicksInv (db : DB) : Prop := ∀ c ∈ db.clicks, clickOK c
def witPagLinks : List Link :=
  [⟨1, "https://www.fiverr.com/a", "aaaaaa"⟩,
   ⟨2, "https://www.fiverr.com/b", "bbbbbb"⟩,
   ⟨3, "https://www.fiverr.com/c", "cccccc"⟩]
def witPagDB : DB := ⟨witPagLinks, []⟩
def witAllocDB : DB := ⟨[⟨1, "https://www.fiverr.com/old", "aaaaaa"⟩], []⟩
def witAllocCodes : Nat → String := fun k => if k = 0 then "aaaaaa" else "bbbbbb"
def witAllocCf : String → Bool := fun _ => false
def witConflictCodes : Nat → String := fun k => if k = 0 then "aaaaaa" else "bbbbbb"
def witConflict : String → Bool := fun c => c == "aaaaaa"
def witRedirectLink : Link := ⟨1, "https://www.fiverr.com/gig", "abc123"⟩
def witRedirectDB : DB := ⟨[witRedirectLink], []⟩
def witEvents : List Event :=
  [Event.create "https://www.fiverr.com/gig" (fun _ => "abc123") (fun _ => false),
   Event.visit "abc123" true ⟨2026, 1, 15⟩ false]
def witClick : Click := ⟨1, 1, ⟨2026, 1, 15⟩, true, (5 : ℚ) / 100⟩
def witStatsClicks : List Click :=
  [⟨1, 1, ⟨2026, 1, 10⟩, true, (5 : ℚ) / 100⟩,
   ⟨2, 1, ⟨2026, 1, 11⟩, false, 0⟩,
   ⟨3, 1, ⟨2026, 2, 1⟩, true, (5 : ℚ) / 100⟩,
   ⟨4, 2, ⟨2026, 2, 2⟩, true, (5 : ℚ) / 100⟩]
def witStatsDB : DB := ⟨[⟨1, "https://www.fiverr.com/a", "aaaaaa"⟩,
                        ⟨2, "https://www.fiverr.com/b", "bbbbbb"⟩], witStatsClicks⟩
/-- `find?` over an appended list, when the first part has no match. -/
theorem find?_append_of_none {α : Type} (p : α → Bool) (l1 l2 : List α)
    (h : l1.find? p = none) : (l1 ++ l2).find? p = l2.find? p := by
  rw [List.find?_append, h, Option.none_or]
/-- When every allowed draw collides, the allocation loop exhausts its
budget. -/
theorem findCodeAux_all_collide (db : DB) (codes : Nat → String) :
    ∀ (r a : Nat), (∀ k, a ≤ k → k < a + r → codeExists db (codes k) = true) →
      findCodeAux db codes a r = none := by
  intro r
  induction r with
  | zero => intro a _; rfl
  | succ n ih =>
    intro a h
    simp only [findCodeAux]
    rw [h a le_rfl (by omega)]
    simp only [if_true]
    exact ih (a + 1) (fun k hk1 hk2 => h k (by omega) (by omega))
/-- The allocation loop returns the first drawn code that is free. -/
theorem findCodeAux_first_free (db : DB) (codes : Nat → String) :
    ∀ (r a j : Nat), a ≤ j → j < a + r →
      (∀ k, a ≤ k → k < j → codeExists db (codes k) = true) →
      codeExists db (codes j) = false →
      findCodeAux db codes a r = some (codes j) := by
  intro r
  induction r with
  | zero => intro a j h1 h2 _ _; omega
  | succ n ih =>
    intro a j h1 h2 h3 h4
    simp only [findCodeAux]
    rcases Nat.eq_or_lt_of_le h1 with rfl | hlt
    · rw [h4]
      simp
    · rw [h3 a le_rfl hlt]
      simp only [if_true]
      exact ih (a + 1) j (by omega) (by omega)
        (fun k hk1 hk2 => h3 k (by omega) hk2) h4
/-- The allocation loop inspects only the draws inside its budget. -/
theorem findCodeAux_congr (db : DB) (codes codes' : Nat → String) :
    ∀ (r a : Nat), (∀ k, a ≤ k → k < a + r → codes' k = codes k) →
      findCodeAux db codes' a r = findCodeAux db codes a r := by
  intro r
  induction r with
  | zero => intro a _; rfl
  | succ n ih =>
    intro a h
    simp only [findCodeAux]
    rw [h a le_rfl (by omega)]
    by_cases hex : codeExists db (codes a) = true
    · rw [hex]
      simp only [if_true]
      exact ih (a + 1) (fun k hk1 hk2 => h k (by omega) (by omega))
    · rw [Bool.not_eq_true] at hex
      rw [hex]
      simp
theorem ymLe_trans {a b c : Nat × Nat} (h1 : ymLe a b) (h2 : ymLe b c) :
    ymLe a c := by
  unfold ymLe at *
  omega
theorem ymLe_of_not_ymLe {a b : Nat × Nat} (h : ¬ymLe a b) : ymLe b a := by
  unfold ymLe at *
  omega
theorem ymLt_of_ymLe_of_ne {a b : Nat × Nat} (h1 : ymLe a b) (h2 : a ≠ b) :
    ymLt a b := by
  rw [Ne, Prod.ext_iff] at h2
  unfold ymLe at h1
  unfold ymLt
  omega
theorem mem_insertYM (p a : Nat × Nat) :
    ∀ (l : List (Nat × Nat)), a ∈ insertYM p l ↔ a = p ∨ a ∈ l := by
  intro l
  induction l with
  | nil => simp [insertYM]
  | cons q rest ih =>
    unfold insertYM
    by_cases h : ymLe p q
    · rw [if_pos h]
      simp
    · rw [if_neg h]
      simp only [List.mem_cons, ih]
      tauto
theorem pairwise_insertYM (p : Nat × Nat) :
    ∀ (l : List (Nat × Nat)), l.Pairwise ymLe →
      (insertYM p l).Pairwise ymLe := by
  intro l
  induction l with
  | nil => intro _; simp [insertYM]
  | cons q rest ih =>
    intro hl
    rw [List.pairwise_cons] at hl
    obtain ⟨hq, hrest⟩ := hl
    unfold insertYM
    by_cases h : ymLe p q
    · rw [if_pos h]
      refine List.Pairwise.cons ?_ (List.Pairwise.cons hq hrest)
      intro b hb
      rcases List.mem_cons.mp hb with rfl | hb
      · exact h
      · exact ymLe_trans h (hq b hb)
    · rw [if_neg h]
      refine List.Pairwise.cons ?_ (ih hrest)
      intro b hb
      rcases (mem_insertYM p b rest).mp hb with rfl | hb
      · exact ymLe_of_not_ymLe h
      · exact hq b hb
theorem nodup_insertYM (p : Nat × Nat) :
    ∀ (l : List (Nat × Nat)), p ∉ l → l.Nodup → (insertYM p l).Nodup := by
  intro l
  induction l with
  | nil => intro _ _; simp [insertYM]
  | cons q rest ih =>
    intro hp hl
    rw [List.nodup_cons] at hl
    obtain ⟨hq, hrest⟩ := hl
    have hpq : p ≠ q := fun h => hp (h ▸ List.mem_cons_self q rest)
    have hpr : p ∉ rest := fun h => hp (List.mem_cons_of_mem q h)
    unfold insertYM
    by_cases h : ymLe p q
    · rw [if_pos h]
      exact List.Nodup.cons (by simp [hpq, hpr]) (List.Nodup.cons hq hrest)
    · rw [if_neg h]
      refine List.Nodup.cons ?_ (ih hpr hrest)
      intro hmem
      rcases (mem_insertYM p q rest).mp hmem with h' | h'
      · exact hpq h'.symm
      · exact hq h'
theorem pairwise_sortYM : ∀ (l : List (Nat × Nat)), (sortYM l).Pairwise ymLe := by
  intro l
  induction l with
  | nil => simp [sortYM]
  | cons p rest ih => exact pairwise_insertYM p (sortYM rest) ih
theorem mem_sortYM (a : Nat × Nat) :
    ∀ (l : List (Nat × Nat)), a ∈ sortYM l ↔ a ∈ l := by
  intro l
  induction l with
  | nil => simp [sortYM]
  | cons p rest ih =>
    unfold sortYM
    rw [mem_insertYM, ih]
    simp
theorem nodup_sortYM : ∀ (l : List (Nat × Nat)), l.Nodup → (sortYM l).Nodup := by
  intro l
  induction l with
  | nil => intro _; simp [sortYM]
  | cons p rest ih =>
    intro h
    rw [List.nodup_cons] at h
    exact nodup_insertYM p (sortYM rest)
      (fun hm => h.1 ((mem_sortYM p rest).mp hm)) (ih h.2)
/-- `create_short_link` never writes to the `clicks` relation. -/
theorem create_short_link_clicks (db : DB) (url : String)
    (codes : Nat → String) (nid : Nat) (cf : String → Bool) :
    (create_short_link db url codes nid cf).2.clicks = db.clicks := by
  unfold create_short_link
  cases hf : db.links.find? (fun l => l.original_url == url) with
  | some l => rfl
  | none =>
    dsimp only
    cases hc : findCodeAux db codes 0 10 with
    | none => rfl
    | some c =>
      dsimp only
      by_cases hcf : cf c = true
      · rw [if_pos hcf]
      · rw [if_neg hcf]
/-- Every click `redirect_to_target` leaves in the store was already
there or obeys the recorder's earnings rule. -/
theorem redirect_to_target_clicks (db : DB) (code : String) (valid : Bool)
    (ts : Timestamp) (cid : Nat) (rf : Bool) :
    ∀ c ∈ (redirect_to_target db code valid ts cid rf).2.clicks,
      c ∈ db.clicks ∨ clickOK c := by
  unfold redirect_to_target
  by_cases h1 : code.length = 0 ∨ 20 < code.length
  · rw [if_pos h1]
    exact fun c hc => Or.inl hc
  · rw [if_neg h1]
    cases hf : db.links.find? (fun l => l.short_code == code) with
    | none => exact fun c hc => Or.inl hc
    | some link =>
      dsimp only
      cases rf with
      | true => exact fun c hc => Or.inl hc
      | false =>
        intro c hc
        simp at hc
        rcases hc with hc | rfl
        · exact Or.inl hc
        · right
          unfold clickOK
          rfl
theorem step_clicksInv (db : DB) (e : Event) (h : clicksInv db) :
    clicksInv (step db e) := by
  cases e with
  | create url codes cf =>
    intro c hc
    rw [step, create_short_link_clicks] at hc
    exact h c hc
  | visit code valid now rf =>
    intro c hc
    rw [step] at hc
    rcases redirect_to_target_clicks db code valid now (db.clicks.length + 1) rf c hc with
      hmem | hok
    · exact h c hmem
    · exact hok
theorem run_clicksInv (es : List Event) : ∀ (db : DB), clicksInv db →
    clicksInv (run db es) := by
  induction es with
  | nil => intro db h; exact h
  | cons e t ih =>
    intro db h
    exact ih (step db e) (step_clicksInv db e h)
/-- The `for link in links` loop of `get_stats`, unrolled: the result is
the accumulator followed by the stats of every link the failure model
does not hit. -/
theorem get_stats_foldl (db : DB) (aggFails : Nat → Bool) :
    ∀ (ls : List Link) (acc : List LinkStats),
      ls.foldl (fun acc l => if aggFails l.id then acc
                             else acc ++ [linkStatsOf db l]) acc
        = acc ++ (ls.filter (fun l => !aggFails l.id)).map (linkStatsOf db) := by
  intro ls
  induction ls with
  | nil => simp
  | cons a t ih =>
    intro acc
    by_cases h : aggFails a.id = true
    · simp [List.foldl_cons, h, ih, List.filter_cons]
    · simp only [Bool.not_eq_true] at h
      simp [List.foldl_cons, h, ih, List.filter_cons]
/-- Sum of recorder-rule earnings over a link's clicks, counted by the
valid ones. -/
theorem sum_earnings_eq_valid_count (lid : Nat) :
    ∀ (cs : List Click), (∀ c ∈ cs, clickOK c) →
      ((cs.filter (fun c => c.link_id == lid)).map Click.earnings).sum
        = ((5 : ℚ) / 100) *
            ((cs.filter (fun c => c.link_id == lid && c.is_valid)).length : ℚ) := by
  intro cs
  induction cs with
  | nil => simp
  | cons a t ih =>
    intro h
    have ha : clickOK a := h a (List.mem_cons_self a t)
    have ht := ih (fun c hc => h c (List.mem_cons_of_mem a hc))
    unfold clickOK at ha
    by_cases hl : a.link_id = lid
    · by_cases hv : a.is_valid = true
      · rw [hv] at ha
        simp only [if_pos rfl] at ha
        simp [List.filter_cons, hl, hv, ht, ha]
        ring
      · rw [Bool.not_eq_true] at hv
        rw [hv] at ha
        simp only [Bool.false_eq_true, if_false] at ha
        simp [List.filter_cons, hl, hv, ht, ha]
    · simp [List.filter_cons, hl, ht]
/-- A bucket whose clicks all have zero earnings sums to zero. -/
theorem bucketSum_zero (cs : List Click) (ym : Nat × Nat)
    (h : ∀ c ∈ cs, ymOf c = ym → c.earnings = 0) :
    bucketSum cs ym = 0 := by
  unfold bucketSum
  apply List.sum_eq_zero
  intro q hq
  rw [List.mem_map] at hq
  obtain ⟨c, hc, rfl⟩ := hq
  rw [List.mem_filter] at hc
  exact h c hc.1 (by simpa using hc.2)
/-- C1: link creation is idempotent on the URL: a pre-existing link with
the requested URL is returned as-is with the store untouched, and a
second creation of the same URL returns the link the first one did,
again leaving the store untouched. -/
theorem create_short_link_idempotent (db : DB) (url : String)
    (codes codes' : Nat → String) (nid nid' : Nat)
    (cf cf' : String → Bool) (l : Link) (db1 : DB) :
    (db.links.find? (fun x => x.original_url == url) = some l →
       l ∈ db.links ∧ l.original_url = url ∧
       create_short_link db url codes nid cf = (.ok l, db)) ∧
    (create_short_link db url codes nid cf = (.ok l, db1) →
       create_short_link db1 url codes' nid' cf' = (.ok l, db1)) := by
  constructor
  · intro h
    refine ⟨List.mem_of_find?_eq_some h, ?_, ?_⟩
    · have := List.find?_some h
      simpa using this
    · unfold create_short_link
      rw [h]
  · intro h
    unfold create_short_link at h ⊢
    cases hf : db.links.find? (fun x => x.original_url == url) with
    | some l0 =>
      rw [hf] at h
      simp only [Prod.mk.injEq, CreateOutcome.ok.injEq] at h
      obtain ⟨rfl, rfl⟩ := h
      rw [hf]
    | none =>
      rw [hf] at h
      dsimp only at h
      cases hc : findCodeAux db codes 0 10 with
      | none => rw [hc] at h; dsimp only at h; simp at h
      | some c =>
        rw [hc] at h
        dsimp only at h
        by_cases hcf : cf c = true
        · rw [if_pos hcf] at h; simp at h
        · rw [if_neg hcf] at h
          simp only [Prod.mk.injEq, CreateOutcome.ok.injEq] at h
          obtain ⟨rfl, rfl⟩ := h
          have hstep : (db.links ++ [(⟨nid, url, c⟩ : Link)]).find?
              (fun x => x.original_url == url) = some (⟨nid, url, c⟩ : Link) := by
            rw [find?_append_of_none _ _ _ hf]
            simp [List.find?]
          rw [show ((⟨db.links ++ [(⟨nid, url, c⟩ : Link)], db.clicks⟩ : DB)).links
              = db.links ++ [(⟨nid, url, c⟩ : Link)] from rfl, hstep]
/-- C2: for a visit to an existing short code, a failure while recording
the click is caught, the transaction rolled back (the store is left
unchanged) and the 307 redirect to the link's `original_url` is still
returned, exactly the response of the successful-recording path. -/
theorem redirect_click_failure_best_effort (db : DB) (code : String)
    (valid : Bool) (ts : Timestamp) (cid : Nat) (link : Link)
    (hlen1 : code.length ≠ 0) (hlen2 : code.length ≤ 20)
    (hfind : db.links.find? (fun l => l.short_code == code) = some link) :
    redirect_to_target db code valid ts cid true
        = (.redirect link.original_url, db) ∧
    (redirect_to_target db code valid ts cid false).1
        = .redirect link.original_url := by
  unfold redirect_to_target
  have hcond : ¬(code.length = 0 ∨ 20 < code.length) := by omega
  simp only [if_neg hcond, hfind]
  exact ⟨rfl, rfl⟩
theorem redirect_click_failure_best_effort_witness :
    redirect_to_target witRedirectDB "abc123" true ⟨2026, 1, 15⟩ 1 true
        = (.redirect witRedirectLink.original_url, witRedirectDB) ∧
    (redirect_to_target witRedirectDB "abc123" true ⟨2026, 1, 15⟩ 1 false).1
        = .redirect witRedirectLink.original_url :=
  redirect_click_failure_best_effort witRedirectDB "abc123" true ⟨2026, 1, 15⟩ 1
    witRedirectLink (by decide) (by decide) (by decide)
/-- C3: the monthly breakdown has exactly one entry per distinct
(year, month) bucket that has at least one click of the link — buckets
with the same month name but different years kept apart — in strictly
ascending (year, month) order, each rendered `"MM/YYYY"` with the month
zero-padded and carrying that bucket's earnings sum; a bucket whose
clicks all earn zero still appears, with earnings `0`. -/
theorem get_monthly_breakdown_spec (db : DB) (lid : Nat) :
    (monthKeys (clicksFor db lid)).Pairwise ymLt ∧
    (∀ ym, ym ∈ monthKeys (clicksFor db lid) ↔
      ∃ c ∈ clicksFor db lid, ymOf c = ym) ∧
    get_monthly_breakdown db lid
      = (monthKeys (clicksFor db lid)).map (fun ym =>
          ⟨pad2 ym.2 ++ "/" ++ toString ym.1,
           bucketSum (clicksFor db lid) ym⟩) ∧
    (∀ m, m < 10 → pad2 m = "0" ++ toString m) ∧
    (∀ ym, (∀ c ∈ clicksFor db lid, ymOf c = ym → c.earnings = 0) →
      bucketSum (clicksFor db lid) ym = 0) := by
  refine ⟨?_, ?_, rfl, ?_, fun ym h => bucketSum_zero _ ym h⟩
  · have h1 := pairwise_sortYM (((clicksFor db lid).map ymOf).dedup)
    have h2 : (monthKeys (clicksFor db lid)).Nodup :=
      nodup_sortYM _ (List.nodup_dedup _)
    have h3 : (monthKeys (clicksFor db lid)).Pairwise
        (fun a b => ymLe a b ∧ a ≠ b) := List.Pairwise.and h1 h2
    exact h3.imp (fun hab => ymLt_of_ymLe_of_ne hab.1 hab.2)
  · intro ym
    unfold monthKeys
    rw [mem_sortYM, List.mem_dedup, List.mem_map]
  · intro m hm
    unfold pad2
    rw [if_pos hm]
/-- C4: `total_clicks` is the count of the link's click rows,
`total_earnings` their earnings sum, and for recorder-produced clicks
that sum is `0.05` times the number of valid clicks of the link. -/
theorem get_link_total_stats_spec (db : DB) (lid : Nat)
    (h : ∀ c ∈ db.clicks, clickOK c) :
    (get_link_total_stats db lid).1
        = (db.clicks.filter (fun c => c.link_id == lid)).length ∧
    (get_link_total_stats db lid).2
        = ((db.clicks.filter (fun c => c.link_id == lid)).map Click.earnings).sum ∧
    (get_link_total_stats db lid).2
        = ((5 : ℚ) / 100) *
            ((db.clicks.filter (fun c => c.link_id == lid && c.is_valid)).length : ℚ) :=
  ⟨rfl, rfl, sum_earnings_eq_valid_count lid db.clicks h⟩
theorem get_link_total_stats_spec_witness :
    (get_link_total_stats witStatsDB 1).1
        = (witStatsDB.clicks.filter (fun c => c.link_id == 1)).length ∧
    (get_link_total_stats witStatsDB 1).2
        = ((witStatsDB.clicks.filter (fun c => c.link_id == 1)).map Click.earnings).sum ∧
    (get_link_total_stats witStatsDB 1).2
        = ((5 : ℚ) / 100) *
            ((witStatsDB.clicks.filter (fun c => c.link_id == 1 && c.is_valid)).length : ℚ) :=
  get_link_total_stats_spec witStatsDB 1 (by
    intro c hc
    simp [witStatsDB, witStatsClicks] at hc
    rcases hc with rfl | rfl | rfl | rfl <;> exact rfl)
/-- C5: for a fresh URL the handler draws at most 10 candidate codes
(only the first 10 draws matter), accepts the first free draw, and when
all 10 draws collide it fails with the HTTP 500 server error and commits
no new link. -/
theorem create_short_link_allocation (db : DB) (url : String)
    (codes : Nat → String) (nid : Nat) (cf : String → Bool)
    (hnone : db.links.find? (fun l => l.original_url == url) = none) :
    ((∀ k, k < 10 → codeExists db (codes k) = true) →
       create_short_link db url codes nid cf = (.serverError, db)) ∧
    (∀ j, j < 10 → (∀ k, k < j → codeExists db (codes k) = true) →
       codeExists db (codes j) = false → cf (codes j) = false →
       create_short_link db url codes nid cf =
         (.ok ⟨nid, url, codes j⟩,
          ⟨db.links ++ [⟨nid, url, codes j⟩], db.clicks⟩)) ∧
    (∀ codes', (∀ k, k < 10 → codes' k = codes k) →
       create_short_link db url codes' nid cf =
         create_short_link db url codes nid cf) := by
  refine ⟨?_, ?_, ?_⟩
  · intro h
    unfold create_short_link
    rw [hnone]
    dsimp only
    rw [findCodeAux_all_collide db codes 10 0 (fun k _ hk => h k (by omega))]
  · intro j hj h1 h2 h3
    unfold create_short_link
    rw [hnone]
    dsimp only
    rw [findCodeAux_first_free db codes 10 0 j (Nat.zero_le j) (by omega)
      (fun k _ hk => h1 k hk) h2]
    dsimp only
    rw [h3]
    simp
  · intro codes' h
    unfold create_short_link
    rw [hnone]
    dsimp only
    rw [findCodeAux_congr db codes codes' 10 0 (fun k _ hk => h k (by omega))]
theorem create_short_link_allocation_witness :
    ((∀ k, k < 10 → codeExists witAllocDB (witAllocCodes k) = true) →
       create_short_link witAllocDB "https://www.fiverr.com/new" witAllocCodes 2 witAllocCf
         = (.serverError, witAllocDB)) ∧
    (∀ j, j < 10 → (∀ k, k < j → codeExists witAllocDB (witAllocCodes k) = true) →
       codeExists witAllocDB (witAllocCodes j) = false → witAllocCf (witAllocCodes j) = false →
       create_short_link witAllocDB "https://www.fiverr.com/new" witAllocCodes 2 witAllocCf =
         (.ok ⟨2, "https://www.fiverr.com/new", witAllocCodes j⟩,
          ⟨witAllocDB.links ++ [⟨2, "https://www.fiverr.com/new", witAllocCodes j⟩],
           witAllocDB.clicks⟩)) ∧
    (∀ codes', (∀ k, k < 10 → codes' k = witAllocCodes k) →
       create_short_link witAllocDB "https://www.fiverr.com/new" codes' 2 witAllocCf =
         create_short_link witAllocDB "https://www.fiverr.com/new" witAllocCodes 2 witAllocCf) :=
  create_short_link_allocation witAllocDB "https://www.fiverr.com/new"
    witAllocCodes 2 witAllocCf (by decide)
/-- C6 (amended): when the insert of the chosen code hits the store's
uniqueness-constraint violation, the `except SQLAlchemyError` handler
rolls the transaction back and surfaces HTTP 500 to the caller; code
generation is not retried. -/
theorem insert_conflict_surfaces_500 (db : DB) (url : String)
    (codes : Nat → String) (nid : Nat) (cf : String → Bool) (c : String)
    (hnone : db.links.find? (fun l => l.original_url == url) = none)
    (hc : findCodeAux db codes 0 10 = some c)
    (hcf : cf c = true) :
    create_short_link db url codes nid cf = (.serverError, db) := by
  unfold create_short_link
  rw [hnone]
  dsimp only
  rw [hc]
  dsimp only
  rw [hcf]
  simp
theorem insert_conflict_surfaces_500_witness :
    create_short_link emptyDB "https://www.fiverr.com/gig" witConflictCodes 1 witConflict
      = (.serverError, emptyDB) :=
  insert_conflict_surfaces_500 emptyDB "https://www.fiverr.com/gig"
    witConflictCodes 1 witConflict "aaaaaa" (by decide) (by decide) (by decide)
/-- C6 counterexample: with a fresh store, draws `"aaaaaa", "bbbbbb", ...`
and a uniqueness-constraint violation on inserting `"aaaaaa"` (a
conflicting concurrent insert that passed the pre-check), the code
surfaces the HTTP 500 server error instead of retrying, while the
retry-on-conflict allocator the spec describes would have succeeded with
the next draw. -/
theorem insert_conflict_not_retried_cex :
    create_short_link emptyDB "https://www.fiverr.com/gig" witConflictCodes 1 witConflict
        = (.serverError, emptyDB) ∧
    create_short_link_retry_spec emptyDB "https://www.fiverr.com/gig" witConflictCodes 1 witConflict
        = (.ok ⟨1, "https://www.fiverr.com/gig", "bbbbbb"⟩,
           ⟨[⟨1, "https://www.fiverr.com/gig", "bbbbbb"⟩], []⟩) := by
  exact ⟨by decide, by decide⟩
/-- C7: pagination skips `(page - 1) * limit` links, returns at most
`limit` links, and yields `[]` (not an error) whenever the offset is at
or beyond the total and the table is nonempty. -/
theorem get_paginated_links_spec (db : DB) (page limit : Nat)
    (_hp : 1 ≤ page) (_hl : 1 ≤ limit) :
    get_paginated_links db page limit
        = (db.links.drop ((page - 1) * limit)).take limit ∧
    (get_paginated_links db page limit).length ≤ limit ∧
    (db.links.length ≤ (page - 1) * limit ∧ 0 < db.links.length →
      get_paginated_links db page limit = []) := by
  unfold get_paginated_links
  by_cases h : db.links.length ≤ (page - 1) * limit ∧ 0 < db.links.length
  · rw [if_pos h, List.drop_eq_nil_of_le h.1]
    simp
  · rw [if_neg h]
    refine ⟨rfl, ?_, fun hcon => absurd hcon h⟩
    rw [List.length_take]
    exact min_le_left _ _
theorem get_paginated_links_spec_witness :
    (get_paginated_links witPagDB 2 2
        = (witPagDB.links.drop ((2 - 1) * 2)).take 2 ∧
      (get_paginated_links witPagDB 2 2).length ≤ 2 ∧
      (witPagDB.links.length ≤ (2 - 1) * 2 ∧ 0 < witPagDB.links.length →
        get_paginated_links witPagDB 2 2 = [])) :=
  get_paginated_links_spec witPagDB 2 2 (by decide) (by decide)
/-- C8: in every store state reachable from the empty store by the
handlers, every click's earnings follow the recorder's rule — `0.05`
when valid, `0` when not — so positive earnings imply validity and
invalidity implies zero earnings. -/
theorem click_earnings_invariant (es : List Event) (c : Click)
    (hc : c ∈ (run emptyDB es).clicks) :
    (0 < c.earnings → c.is_valid = true) ∧
    (c.is_valid = false → c.earnings = 0) ∧
    c.earnings = (if c.is_valid then (5 : ℚ) / 100 else 0) := by
  have hok : clickOK c := run_clicksInv es emptyDB (fun c hc => absurd hc (by simp [emptyDB])) c hc
  unfold clickOK at hok
  refine ⟨?_, ?_, hok⟩
  · intro hpos
    by_contra hval
    rw [Bool.not_eq_true] at hval
    rw [hval] at hok
    simp only [Bool.false_eq_true, if_false] at hok
    rw [hok] at hpos
    exact lt_irrefl 0 hpos
  · intro hval
    rw [hval] at hok
    simpa using hok
theorem click_earnings_invariant_witness :
    (0 < witClick.earnings → witClick.is_valid = true) ∧
    (witClick.is_valid = false → witClick.earnings = 0) ∧
    witClick.earnings = (if witClick.is_valid then (5 : ℚ) / 100 else 0) :=
  click_earnings_invariant witEvents witClick (by
    rw [show (run emptyDB witEvents).clicks = [witClick] from rfl]
    exact List.mem_singleton_self _)
/-- C9: every string `generate_short_code` returns has exactly the
requested number of characters, each drawn from the 62-symbol alphabet
of ASCII letters and digits; the default length is 6. -/
theorem generate_short_code_spec (choice : Nat → Fin 62) (n : Nat) :
    (generate_short_code choice n).length = n ∧
    (generate_short_code choice).length = 6 ∧
    (∀ c ∈ (generate_short_code choice n).toList, c ∈ chars) ∧
    chars.length = 62 ∧ chars.Nodup ∧
    (∀ c ∈ chars,
      ('a' ≤ c ∧ c ≤ 'z') ∨ ('A' ≤ c ∧ c ≤ 'Z') ∨ ('0' ≤ c ∧ c ≤ '9')) := by
  refine ⟨?_, ?_, ?_, by decide, by decide, by decide⟩
  · simp [generate_short_code, String.length]
  · simp [generate_short_code, String.length]
  · intro c hc
    simp only [generate_short_code, String.toList, List.mem_map] at hc
    obtain ⟨i, _, rfl⟩ := hc
    exact List.get_mem _ _ _
/-- C10: a failing per-link aggregation is skipped and every link of the
page whose aggregation succeeds keeps its entry, in page order; the
request as a whole never fails. -/
theorem get_stats_skips_only_failures (db : DB) (page limit : Nat)
    (aggFails : Nat → Bool) :
    get_stats db page limit aggFails
      = ((get_paginated_links db page limit).filter
          (fun l => !aggFails l.id)).map (linkStatsOf db) := by
  unfold get_stats
  rw [get_stats_foldl]
  simp

end UrlShortener
